import Mathlib

/-!
Verification development for the webgraphy backend: a property-graph store
(nodes, directed labeled edges, JSON-like property maps) exposed through an
API over ArangoDB.  The definitions below are a shallow embedding of
`backend/app/api/routes/graphs.py` together with the documented semantics of
the ArangoDB operations that file invokes (document insert/get on the
`nodes` and `edges` collections, and the AQL traversal query of
`get_node_neighbors`).  Theorems about the claims of the specification
follow the definitions.
-/

namespace Webgraphy

/-! ## JSON-like property values

The spec (section 3) lets `properties` be a mapping from strings to arbitrary
nested JSON-like values; the Python code passes these through untouched
(`Dict[str, Any]`).  We model values as a tagged union with nesting via
mutually inductive list spines so that equality stays decidable. -/

mutual
inductive JsonVal where
  | null
  | bool (b : Bool)
  | num (n : Int)
  | str (s : String)
  | arr (elems : JsonArr)
  | obj (fields : JsonObj)
deriving DecidableEq, Repr
inductive JsonArr where
  | nil
  | cons (hd : JsonVal) (tl : JsonArr)
deriving DecidableEq, Repr
inductive JsonObj where
  | nil
  | cons (k : String) (v : JsonVal) (tl : JsonObj)
deriving DecidableEq, Repr
end

/-- Property map of a node or edge: association list from keys to values
(`properties: Dict[str, Any]` in `models/graph.py`, default `{}`). -/
abbrev Props := List (String × JsonVal)

/-! ## Entity model (`backend/app/models/graph.py`)

`Node` and `Edge` below are the wire shapes produced by the route handlers
(pydantic `response_model`): every field present, `properties` defaulted to
the empty map.  `NodeInput`/`EdgeInput` are the request bodies, where `id`
is optional (`id: Optional[str] = None`).  The pydantic models require
`label`, `type` (for nodes) and `from_node`, `to_node`, `label` (for edges),
so those are plain fields here; a request missing one is rejected by the
framework before the handler runs and never reaches these functions. -/

structure Node where
  id : String
  label : String
  type_ : String
  properties : Props
deriving DecidableEq, Repr

structure Edge where
  id : String
  from_node : String
  to_node : String
  label : String
  properties : Props
deriving DecidableEq, Repr

structure Graph where
  nodes : List Node
  edges : List Edge
deriving DecidableEq, Repr

structure NodeInput where
  id : Option String
  label : String
  type_ : String
  properties : Props
deriving DecidableEq, Repr

structure EdgeInput where
  id : Option String
  from_node : String
  to_node : String
  label : String
  properties : Props
deriving DecidableEq, Repr

/-! ## Stored documents and the store

One document per entity, as the handlers write them into the ArangoDB
collections `nodes` and `edges`.  `key` is the ArangoDB `_key`; `from_`/`to_`
hold the `_from`/`_to` full document ids (strings of the shape
`collection/key`, stored verbatim from the request's `from_node`/`to_node`).
The handlers never read back the inert `id` attribute that `create_node`
leaves in the stored dict, so it is not tracked. `create_node`/`create_edge`
always store `label`, `type` and (possibly defaulted) `properties`, so those
are plain fields. -/

structure StoredNode where
  key : String
  label : String
  type_ : String
  properties : Props
deriving DecidableEq, Repr

structure StoredEdge where
  key : String
  from_ : String
  to_ : String
  label : String
  properties : Props
deriving DecidableEq, Repr

structure Store where
  nodes : List StoredNode
  edges : List StoredEdge
deriving DecidableEq, Repr

/-- Well-formed store: ArangoDB enforces `_key` uniqueness per collection. -/
def Store.WF (st : Store) : Prop :=
  (st.nodes.map (fun s => s.key)).Nodup ∧ (st.edges.map (fun e => e.key)).Nodup

instance (st : Store) : Decidable st.WF := by
  unfold Store.WF; infer_instance

/-- Error taxonomy as surfaced by the handlers: FastAPI parameter validation
(HTTP 422), explicit `HTTPException(404)`, and the catch-all
`HTTPException(500)` wrapping storage failures. -/
inductive Err where
  | validation
  | notFound
  | storage
deriving DecidableEq, Repr

def Err.statusCode : Err → Nat
  | .validation => 422
  | .notFound => 404
  | .storage => 500

/-- Client errors are the 4xx statuses, as opposed to the 500 server error. -/
def Err.isClientError (e : Err) : Bool := e.statusCode < 500

/-- Truthiness of an optional string, as Python evaluates `if type:` in
`get_nodes`: `None` and the empty string are falsy. -/
def pyTruthy : Option String → Bool
  | none => false
  | some s => !s.isEmpty

/-- Syntactic validity of an ArangoDB document id: `collection/key` with a
single slash and nonempty halves.  The document API insert into an edge
collection checks only this shape of `_from`/`_to`; it does not check that
the referenced documents exist. -/
def validDocId (s : String) : Bool :=
  (s.data.count '/' == 1) &&
  !(s.data.takeWhile (fun c => c != '/')).isEmpty &&
  !((s.data.dropWhile (fun c => c != '/')).drop 1).isEmpty

/-- Largest length of any key in the list (0 when empty). -/
def maxKeyLen (keys : List String) : Nat :=
  keys.foldr (fun s m => max s.length m) 0

/-- Fresh `_key` for a collection insert.  ArangoDB auto-generates a key that
is distinct from every existing key in the collection; we model that by a
deterministic key strictly longer than all present keys. -/
def freshKey (keys : List String) : String :=
  String.mk (List.replicate (maxKeyLen keys + 1) 'k')

/-- Lookup of a node document by `_key` (`nodes_collection.get` /
`nodes_collection.has`). -/
def findNode (st : Store) (nodeId : String) : Option StoredNode :=
  st.nodes.find? (fun s => s.key == nodeId)

/-- Existence check used by `get_node_neighbors` (`nodes_collection.has`). -/
def nodeExists (st : Store) (nodeId : String) : Bool :=
  (findNode st nodeId).isSome

/-- Full ArangoDB document id of a node, as built by `get_node_neighbors`. -/
def fullId (nodeId : String) : String := "nodes/" ++ nodeId

/-- Response shaping of a node document: `_key` becomes `id`; the handlers
default missing `label`/`type`/`properties` (`doc.get(..., default)`), which
for documents written by this API are always present. -/
def formatNode (s : StoredNode) : Node :=
  ⟨s.key, s.label, s.type_, s.properties⟩

/-- Response shaping of an edge document (`_from`/`_to` pass through as the
full ids the client supplied). -/
def formatEdge (e : StoredEdge) : Edge :=
  ⟨e.key, e.from_, e.to_, e.label, e.properties⟩

/-! ## The traversal primitive

`get_node_neighbors` runs the AQL query

  FOR v, e IN 1..depth ANY node_id GRAPH 'webgraph' RETURN ( vertex: v, edge: e )

ArangoDB graph traversal with the default options (`uniqueEdges: "path"`,
`uniqueVertices: "none"`) enumerates every path from the start vertex of
length 1 up to `depth` whose edges are pairwise distinct, following each
edge in either direction (`ANY`), and emits one row per path: the path's
final vertex paired with its final edge.  We embed exactly that: a
depth-first enumeration over the store's edge list, carrying the set of
edge keys already used on the current path.  A step is only taken when the
reached endpoint is an existing document of the `nodes` collection (a
dangling `_from`/`_to` ends the walk and yields no row). -/

/-- Edges incident to the vertex with full document id `cur`, in either
direction (`ANY`). -/
def incident (st : Store) (cur : String) : List StoredEdge :=
  st.edges.filter (fun e => e.from_ == cur || e.to_ == cur)

/-- The endpoint of `e` opposite to `cur` (for a self-loop this is `cur`
itself). -/
def edgeOther (e : StoredEdge) (cur : String) : String :=
  if e.from_ == cur then e.to_ else e.from_

/-- Node document designated by a full id, when the id lies in the `nodes`
vertex collection of the `webgraph` graph and the document exists. -/
def lookupFull (st : Store) (full : String) : Option StoredNode :=
  st.nodes.find? (fun s => fullId s.key == full)

/-- Rows emitted by the traversal: one `(vertex, edge)` pair per
edge-distinct path of length `1..fuel` starting at `cur`, where `used`
holds the edge keys already traversed on the current path. -/
def traverseFrom (st : Store) : Nat → String → List String → List (StoredNode × StoredEdge)
  | 0, _, _ => []
  | fuel + 1, cur, used =>
    ((incident st cur).filter (fun e => !(used.contains e.key))).flatMap (fun e =>
      match lookupFull st (edgeOther e cur) with
      | none => []
      | some v => (v, e) :: traverseFrom st fuel (edgeOther e cur) (e.key :: used))

/-- First-occurrence de-duplication, the semantics of AQL `RETURN DISTINCT`
over the projected documents. -/
def distinctList {α : Type} [DecidableEq α] (seen : List α) : List α → List α
  | [] => []
  | x :: xs => if x ∈ seen then distinctList seen xs else x :: distinctList (x :: seen) xs

/-! ## Route handlers (`backend/app/api/routes/graphs.py`)

Query parameters arrive as integers already parsed by FastAPI; the
`Query(default, gt=0, le=...)` range check is part of each handler's
observable contract (it rejects the request with a 422 validation error
before the body runs), so it is embedded as the outer guard.  Storage
connectivity failures are out of the model: every store call that the
backing database would answer is answered. -/

/-- POST /graphs/nodes/ — `create_node`.  The handler drops a `None` id,
inserts the remaining dict into the `nodes` collection (ArangoDB assigns a
fresh `_key`; a supplied `id` attribute is stored as inert data, never used
as the key), then overwrites `id` with the returned `_key` and responds
with the resulting dict. -/
def create_node (st : Store) (node : NodeInput) : Node × Store :=
  let key := freshKey (st.nodes.map (fun s => s.key))
  let stored : StoredNode := ⟨key, node.label, node.type_, node.properties⟩
  (⟨key, node.label, node.type_, node.properties⟩,
   ⟨st.nodes ++ [stored], st.edges⟩)

/-- GET /graphs/nodes/ — `get_nodes`.  `limit` is validated by
`Query(100, gt=0, le=1000)`; the AQL filter on `type` runs only when the
Python value is truthy (so `type=""` means no filter), and `LIMIT` applies
after the filter. -/
def get_nodes (st : Store) (type? : Option String) (limit : Int) : Except Err (List Node) :=
  if 0 < limit ∧ limit ≤ 1000 then
    let docs :=
      if pyTruthy type? then
        st.nodes.filter (fun s => s.type_ == type?.getD "")
      else
        st.nodes
    .ok ((docs.take limit.toNat).map formatNode)
  else .error .validation

/-- GET /graphs/nodes/(id) — `get_node`: point lookup by `_key`, 404 when
the document is absent. -/
def get_node (st : Store) (nodeId : String) : Except Err Node :=
  match findNode st nodeId with
  | none => .error .notFound
  | some s => .ok (formatNode s)

/-- POST /graphs/edges/ — `create_edge`.  The handler renames
`from_node`/`to_node` to `_from`/`_to` and inserts into the `edges`
collection through the document API.  That insert validates only the
syntactic `collection/key` shape of `_from`/`_to` — a malformed id raises
(surfaced as the 500 storage error) — and does not check that the
referenced vertices exist. -/
def create_edge (st : Store) (edge : EdgeInput) : Except Err (Edge × Store) :=
  if validDocId edge.from_node && validDocId edge.to_node then
    let key := freshKey (st.edges.map (fun e => e.key))
    let stored : StoredEdge := ⟨key, edge.from_node, edge.to_node, edge.label, edge.properties⟩
    .ok (⟨key, edge.from_node, edge.to_node, edge.label, edge.properties⟩,
         ⟨st.nodes, st.edges ++ [stored]⟩)
  else .error .storage

/-- GET /graphs/edges/ — `get_edges`, with the same
`Query(100, gt=0, le=1000)` limit contract as `get_nodes`. -/
def get_edges (st : Store) (limit : Int) : Except Err (List Edge) :=
  if 0 < limit ∧ limit ≤ 1000 then
    .ok ((st.edges.take limit.toNat).map formatEdge)
  else .error .validation

/-- GET /graphs/neighbors/(id) — `get_node_neighbors`.  `depth` is validated
by `Query(1, gt=0, le=3)`; the handler 404s when the start node is absent,
before any traversal; otherwise it runs the traversal query, whose result is

  nodes = APPEND([start projection], DISTINCT vertex projections)
  edges = DISTINCT edge projections (the null filter never fires, since
          every row of a depth >= 1 traversal carries an edge)

and formats both lists.  AQL `APPEND` without its `unique` flag concatenates
as-is, so the prepended start node is not de-duplicated against the reached
vertices. -/
def get_node_neighbors (st : Store) (nodeId : String) (depth : Int) : Except Err Graph :=
  if 0 < depth ∧ depth ≤ 3 then
    match findNode st nodeId with
    | none => .error .notFound
    | some start =>
      let rows := traverseFrom st depth.toNat (fullId nodeId) []
      .ok ⟨formatNode start :: (distinctList [] (rows.map (fun r => r.1))).map formatNode,
           (distinctList [] (rows.map (fun r => r.2))).map formatEdge⟩
  else .error .validation

/-- Node list of a neighborhood response (empty on error). -/
def resNodes (r : Except Err Graph) : List Node :=
  match r with
  | .ok g => g.nodes
  | .error _ => []

/-- Edge list of a neighborhood response (empty on error). -/
def resEdges (r : Except Err Graph) : List Edge :=
  match r with
  | .ok g => g.edges
  | .error _ => []

/-- Ids of the nodes of a neighborhood response, in result order. -/
def resNodeIds (r : Except Err Graph) : List String :=
  (resNodes r).map (fun n => n.id)

/-- Ids of the edges of a neighborhood response, in result order. -/
def resEdgeIds (r : Except Err Graph) : List String :=
  (resEdges r).map (fun e => e.id)

/-! ## Concrete stores used by the scenario theorems -/

/-- A store with no documents at all. -/
def emptyStore : Store := ⟨[], []⟩

/-- One node `A` and no edges. -/
def loneStore : Store :=
  ⟨[⟨"A", "A", "page", []⟩], []⟩

/-- One node `A` with a self-loop edge, making the start node re-reachable
in one hop. -/
def selfLoopStore : Store :=
  ⟨[⟨"A", "A", "page", []⟩],
   [⟨"e1", "nodes/A", "nodes/A", "LINKS", []⟩]⟩

/-- The spec's concrete scenario: nodes `A`, `B`, `C` with edges
`A -> B` and `B -> C`, both labeled `LINKS`. -/
def chainStore : Store :=
  ⟨[⟨"A", "A", "page", []⟩, ⟨"B", "B", "page", []⟩, ⟨"C", "C", "page", []⟩],
   [⟨"e1", "nodes/A", "nodes/B", "LINKS", []⟩,
    ⟨"e2", "nodes/B", "nodes/C", "LINKS", []⟩]⟩

/-- A store with one node `X`, used to witness that edge insertion does not
consult the node collection. -/
def oneNodeStore : Store :=
  ⟨[⟨"X", "X", "page", []⟩], []⟩

/-! ## Supporting lemmas -/

/-- Unfolding of the traversal at positive fuel. -/
theorem traverseFrom_succ (st : Store) (fuel : Nat) (cur : String) (used : List String) :
    traverseFrom st (fuel + 1) cur used =
      ((incident st cur).filter (fun e => !(used.contains e.key))).flatMap (fun e =>
        match lookupFull st (edgeOther e cur) with
        | none => []
        | some v => (v, e) :: traverseFrom st fuel (edgeOther e cur) (e.key :: used)) := rfl

/-- Membership in the de-duplicated list: exactly the input elements not
already seen. -/
theorem mem_distinctList {α : Type} [DecidableEq α] (l : List α) :
    ∀ (seen : List α) (x : α), x ∈ distinctList seen l ↔ x ∈ l ∧ x ∉ seen := by
  induction l with
  | nil => intro seen x; simp [distinctList]
  | cons y ys ih =>
    intro seen x
    by_cases hy : y ∈ seen
    · rw [distinctList, if_pos hy, ih]
      constructor
      · rintro ⟨hx, hs⟩
        exact ⟨List.mem_cons_of_mem _ hx, hs⟩
      · rintro ⟨hx, hs⟩
        rcases List.mem_cons.mp hx with h | h
        · subst h; exact absurd hy hs
        · exact ⟨h, hs⟩
    · rw [distinctList, if_neg hy]
      constructor
      · intro hx
        rcases List.mem_cons.mp hx with h | h
        · subst h; exact ⟨List.mem_cons_self _ _, hy⟩
        · rcases (ih _ _).mp h with ⟨h1, h2⟩
          refine ⟨List.mem_cons_of_mem _ h1, fun hmem => h2 (List.mem_cons_of_mem _ hmem)⟩
      · rintro ⟨hx, hs⟩
        rcases List.mem_cons.mp hx with h | h
        · subst h; exact List.mem_cons_self _ _
        · by_cases hxy : x = y
          · subst hxy; exact List.mem_cons_self _ _
          · refine List.mem_cons_of_mem _ ((ih _ _).mpr ⟨h, fun hmem => ?_⟩)
            rcases List.mem_cons.mp hmem with h' | h'
            · exact hxy h'
            · exact hs h'

/-- The de-duplicated list has no duplicates. -/
theorem distinctList_nodup {α : Type} [DecidableEq α] (l : List α) :
    ∀ seen : List α, (distinctList seen l).Nodup := by
  induction l with
  | nil => intro seen; simp [distinctList]
  | cons y ys ih =>
    intro seen
    by_cases hy : y ∈ seen
    · rw [distinctList, if_pos hy]; exact ih seen
    · rw [distinctList, if_neg hy]
      refine List.nodup_cons.mpr ⟨fun hmem => ?_, ih (y :: seen)⟩
      exact ((mem_distinctList ys (y :: seen) y).mp hmem).2 (List.mem_cons_self y seen)

/-- De-duplication does not change the image of the list under a map. -/
theorem mem_map_distinctList {α β : Type} [DecidableEq α] (l : List α) (f : α → β) (y : β) :
    y ∈ (distinctList [] l).map f ↔ y ∈ l.map f := by
  simp only [List.mem_map]
  constructor
  · rintro ⟨s, hs, rfl⟩
    exact ⟨s, ((mem_distinctList l [] s).mp hs).1, rfl⟩
  · rintro ⟨s, hs, rfl⟩
    exact ⟨s, (mem_distinctList l [] s).mpr ⟨hs, List.not_mem_nil s⟩, rfl⟩

/-- Every key in the list is bounded by `maxKeyLen`. -/
theorem length_le_maxKeyLen (keys : List String) (s : String) (hs : s ∈ keys) :
    s.length ≤ maxKeyLen keys := by
  induction keys with
  | nil => cases hs
  | cons k ks ih =>
    rcases List.mem_cons.mp hs with h | h
    · subst h; exact le_max_left _ _
    · exact le_trans (ih h) (le_max_right _ _)

/-- The generated key differs from every existing key (it is strictly
longer). -/
theorem freshKey_not_mem (keys : List String) : freshKey keys ∉ keys := by
  intro hmem
  have hlen := length_le_maxKeyLen keys _ hmem
  have hfresh : (freshKey keys).length = maxKeyLen keys + 1 := by
    show (List.replicate (maxKeyLen keys + 1) 'k').length = maxKeyLen keys + 1
    exact List.length_replicate _ _
  omega

/-- A vertex emitted by the traversal is a document of the `nodes`
collection. -/
theorem traverseFrom_fst_mem (st : Store) (fuel : Nat) :
    ∀ (cur : String) (used : List String) (r : StoredNode × StoredEdge),
      r ∈ traverseFrom st fuel cur used → r.1 ∈ st.nodes := by
  induction fuel with
  | zero => intro cur used r h; simp [traverseFrom] at h
  | succ n ih =>
    intro cur used r h
    rw [traverseFrom_succ] at h
    rcases List.mem_flatMap.mp h with ⟨a, _, hx⟩
    cases hfind : lookupFull st (edgeOther a cur) with
    | none => simp only [hfind] at hx; exact absurd hx (List.not_mem_nil r)
    | some w =>
      simp only [hfind] at hx
      rcases List.mem_cons.mp hx with h1 | h1
      · subst h1
        exact List.mem_of_find?_eq_some hfind
      · exact ih _ _ _ h1

/-- A row emitted within `fuel` hops is also emitted within `fuel + 1`
hops: raising the bound only adds paths. -/
theorem traverseFrom_mono (st : Store) (fuel : Nat) :
    ∀ (cur : String) (used : List String) (r : StoredNode × StoredEdge),
      r ∈ traverseFrom st fuel cur used → r ∈ traverseFrom st (fuel + 1) cur used := by
  induction fuel with
  | zero => intro cur used r h; simp [traverseFrom] at h
  | succ n ih =>
    intro cur used r h
    rw [traverseFrom_succ] at h
    rw [traverseFrom_succ]
    rcases List.mem_flatMap.mp h with ⟨a, ha, hx⟩
    refine List.mem_flatMap.mpr ⟨a, ha, ?_⟩
    cases hfind : lookupFull st (edgeOther a cur) with
    | none => simp only [hfind] at hx; exact absurd hx (List.not_mem_nil r)
    | some w =>
      simp only [hfind] at hx ⊢
      rcases List.mem_cons.mp hx with h1 | h1
      · exact h1 ▸ List.mem_cons_self _ _
      · exact List.mem_cons_of_mem _ (ih _ _ _ h1)

/-- A vertex with no incident edges yields an empty traversal at any
fuel. -/
theorem traverseFrom_of_incident_nil (st : Store) (fuel : Nat) (cur : String)
    (used : List String) (h : incident st cur = []) :
    traverseFrom st fuel cur used = [] := by
  cases fuel with
  | zero => rfl
  | succ n => rw [traverseFrom_succ, h]; rfl

/-- Shape of a successful neighborhood response: the formatted start node
prepended to the de-duplicated formatted reached vertices, alongside the
de-duplicated formatted traversed edges. -/
theorem get_node_neighbors_ok (st : Store) (nodeId : String) (start : StoredNode) (depth : Int)
    (hfind : findNode st nodeId = some start) (hdep : 0 < depth ∧ depth ≤ 3) :
    get_node_neighbors st nodeId depth =
      .ok ⟨formatNode start ::
             (distinctList [] ((traverseFrom st depth.toNat (fullId nodeId) []).map
               (fun r => r.1))).map formatNode,
           (distinctList [] ((traverseFrom st depth.toNat (fullId nodeId) []).map
               (fun r => r.2))).map formatEdge⟩ := by
  unfold get_node_neighbors
  rw [if_pos hdep, hfind]

/-- Lookup by key over a collection extended with a document whose key is
new finds exactly the new document. -/
theorem find?_key_append_fresh (nodes : List StoredNode) (s : StoredNode) (k : String)
    (hk : s.key = k) (hfresh : k ∉ nodes.map (fun t => t.key)) :
    (nodes ++ [s]).find? (fun t => t.key == k) = some s := by
  rw [List.find?_append]
  have h1 : nodes.find? (fun t => t.key == k) = none := by
    rw [List.find?_eq_none]
    intro x hx hbeq
    exact hfresh ((eq_of_beq hbeq) ▸ List.mem_map_of_mem (fun t => t.key) hx)
  rw [h1]
  simp [List.find?, hk]

/-! ## The claims -/

/-- C4 (confirmed): both listing operations share the single limit policy of
rejecting every limit outside the interval from 1 to 1000 with a
validation error, which is a client error; in particular `limit = 2000`
never silently returns entities. -/
theorem c4_limit_policy (st : Store) (typeFilter : Option String) (limit : Int)
    (hbad : ¬ (0 < limit ∧ limit ≤ 1000)) :
    get_nodes st typeFilter limit = .error .validation ∧
    get_edges st limit = .error .validation ∧
    Err.validation.isClientError = true := by
  refine ⟨?_, ?_, rfl⟩
  · unfold get_nodes
    rw [if_neg hbad]
  · unfold get_edges
    rw [if_neg hbad]

/-- C4 witness: a call with `limit = 2000` on a concrete store is rejected
with the validation client error by both listings. -/
theorem c4_limit_policy_witness :
    get_nodes emptyStore none 2000 = .error .validation ∧
    get_edges emptyStore 2000 = .error .validation ∧
    Err.validation.isClientError = true :=
  c4_limit_policy emptyStore none 2000 (by decide)

/-- C5 (confirmed): for every existing start node and every valid depth the
response contains the start node, and when the start node has no incident
edges the response is exactly the start node alone with no edges. -/
theorem c5_start_included (st : Store) (nodeId : String) (start : StoredNode) (depth : Int)
    (hfind : findNode st nodeId = some start) (hdep : 0 < depth ∧ depth ≤ 3) :
    formatNode start ∈ resNodes (get_node_neighbors st nodeId depth) ∧
    (incident st (fullId nodeId) = [] →
      get_node_neighbors st nodeId depth = .ok ⟨[formatNode start], []⟩) := by
  constructor
  · rw [get_node_neighbors_ok st nodeId start depth hfind hdep]
    exact List.mem_cons_self _ _
  · intro hinc
    rw [get_node_neighbors_ok st nodeId start depth hfind hdep,
        traverseFrom_of_incident_nil st depth.toNat (fullId nodeId) [] hinc]
    rfl

/-- C5 witness: the start node is in the depth-1 expansion of the chain
store, and the expansion of the isolated node `A` at depth 2 is exactly
that node with no edges. -/
theorem c5_start_included_witness :
    formatNode ⟨"A", "A", "page", []⟩ ∈ resNodes (get_node_neighbors chainStore "A" 1) ∧
    get_node_neighbors loneStore "A" 2 = .ok ⟨[formatNode ⟨"A", "A", "page", []⟩], []⟩ :=
  ⟨(c5_start_included chainStore "A" ⟨"A", "A", "page", []⟩ 1 (by decide) (by decide)).1,
   (c5_start_included loneStore "A" ⟨"A", "A", "page", []⟩ 2 (by decide) (by decide)).2 (by decide)⟩

/-- C7 (confirmed): on the store with nodes `A`, `B`, `C` and edges
`A -> B`, `B -> C` (label `LINKS`), depth-1 expansion from `A` returns
exactly nodes `A`, `B` with edge `e1 = A -> B`, depth-2 expansion returns
exactly nodes `A`, `B`, `C` with edges `e1`, `e2 = B -> C` (so depth 1 does
not reach `C`), and expansion follows edges against their direction:
depth-1 expansion from `C` reaches `B` through `e2`. -/
theorem c7_concrete_scenario :
    get_node_neighbors chainStore "A" 1 =
      .ok ⟨[⟨"A", "A", "page", []⟩, ⟨"B", "B", "page", []⟩],
           [⟨"e1", "nodes/A", "nodes/B", "LINKS", []⟩]⟩ ∧
    get_node_neighbors chainStore "A" 2 =
      .ok ⟨[⟨"A", "A", "page", []⟩, ⟨"B", "B", "page", []⟩, ⟨"C", "C", "page", []⟩],
           [⟨"e1", "nodes/A", "nodes/B", "LINKS", []⟩,
            ⟨"e2", "nodes/B", "nodes/C", "LINKS", []⟩]⟩ ∧
    resNodeIds (get_node_neighbors chainStore "C" 1) = ["C", "B"] ∧
    resEdgeIds (get_node_neighbors chainStore "C" 1) = ["e2"] := by
  refine ⟨rfl, rfl, rfl, rfl⟩

/-- C8 (confirmed): expanding from an id that names no stored node fails
with the not-found error for every store, every such id and every valid
depth, regardless of the edges present (the existence check precedes any
traversal); the error surfaces as 404, a client error distinct from the
500 server error. -/
theorem c8_not_found (st : Store) (nodeId : String) (depth : Int)
    (hdep : 0 < depth ∧ depth ≤ 3) (hmiss : findNode st nodeId = none) :
    get_node_neighbors st nodeId depth = .error .notFound ∧
    Err.notFound.statusCode = 404 ∧
    Err.notFound.isClientError = true ∧
    Err.storage.isClientError = false := by
  refine ⟨?_, rfl, rfl, rfl⟩
  unfold get_node_neighbors
  rw [if_pos hdep, hmiss]

/-- C8 witness: the spec's not-found scenario at depth 1. -/
theorem c8_not_found_witness :
    get_node_neighbors emptyStore "nonexistent" 1 = .error .notFound ∧
    Err.notFound.statusCode = 404 ∧
    Err.notFound.isClientError = true ∧
    Err.storage.isClientError = false :=
  c8_not_found emptyStore "nonexistent" 1 (by decide) (by rfl)

/-- C9 (confirmed): reading back a node through the id returned by its
creation yields exactly the created node, whose label, type and properties
map are those of the request, passed through without coercion or loss. -/
theorem c9_insert_get_round_trip (st : Store) (inp : NodeInput) :
    get_node (create_node st inp).2 (create_node st inp).1.id =
      Except.ok (create_node st inp).1 ∧
    (create_node st inp).1.label = inp.label ∧
    (create_node st inp).1.type_ = inp.type_ ∧
    (create_node st inp).1.properties = inp.properties := by
  refine ⟨?_, rfl, rfl, rfl⟩
  show get_node
      ⟨st.nodes ++ [⟨freshKey (st.nodes.map (fun s => s.key)), inp.label, inp.type_,
        inp.properties⟩], st.edges⟩
      (freshKey (st.nodes.map (fun s => s.key))) = _
  unfold get_node findNode
  rw [find?_key_append_fresh st.nodes
        ⟨freshKey (st.nodes.map (fun s => s.key)), inp.label, inp.type_, inp.properties⟩
        (freshKey (st.nodes.map (fun s => s.key))) rfl (freshKey_not_mem _)]
  rfl

/-- C10 (confirmed): listing nodes with the empty-string type filter is the
very same computation as listing them with the filter omitted, because the
filter only applies when the given string is truthy. -/
theorem c10_empty_type_filter (st : Store) (limit : Int) :
    get_nodes st (some "") limit = get_nodes st none limit := rfl

/-- C1 counterexample: on the store with the single node `A` and a
self-loop edge, the depth-1 expansion lists `A` twice — the node query
appends the start node to the de-duplicated reached vertices without
de-duplicating against it. -/
theorem c1_counterexample :
    resNodeIds (get_node_neighbors selfLoopStore "A" 1) = ["A", "A"] ∧
    ¬ (resNodeIds (get_node_neighbors selfLoopStore "A" 1)).Nodup := by
  refine ⟨rfl, by decide⟩

/-- C1 (amended): in every expansion result the reached vertices carry
pairwise distinct ids and the start node heads the list; hence every node
other than the start appears exactly once, while the start itself appears
a second time exactly when the traversal re-reaches it within the depth
bound. -/
theorem c1_dedup_amended (st : Store) (nodeId : String) (start : StoredNode) (depth : Int)
    (hwf : st.WF) (hfind : findNode st nodeId = some start) (hdep : 0 < depth ∧ depth ≤ 3) :
    (resNodeIds (get_node_neighbors st nodeId depth)).head? = some start.key ∧
    (resNodeIds (get_node_neighbors st nodeId depth)).tail.Nodup := by
  rw [get_node_neighbors_ok st nodeId start depth hfind hdep]
  refine ⟨rfl, ?_⟩
  show (((distinctList [] ((traverseFrom st depth.toNat (fullId nodeId) []).map
      (fun r => r.1))).map formatNode).map (fun n => n.id)).Nodup
  rw [List.map_map]
  have hcomp : ((fun n : Node => n.id) ∘ formatNode) = (fun s : StoredNode => s.key) := rfl
  rw [hcomp]
  apply List.Nodup.map_on
  · intro x hx y hy hxy
    have hx' : x ∈ st.nodes := by
      rcases List.mem_map.mp ((mem_distinctList _ _ _).mp hx).1 with ⟨r, hr, hrx⟩
      exact hrx ▸ traverseFrom_fst_mem st depth.toNat _ _ r hr
    have hy' : y ∈ st.nodes := by
      rcases List.mem_map.mp ((mem_distinctList _ _ _).mp hy).1 with ⟨r, hr, hry⟩
      exact hry ▸ traverseFrom_fst_mem st depth.toNat _ _ r hr
    exact List.inj_on_of_nodup_map hwf.1 hx' hy' hxy
  · exact distinctList_nodup _ _

/-- C1 witness: already on the self-loop store the amended statement holds,
with the duplicated start at the head and a duplicate-free tail. -/
theorem c1_dedup_amended_witness :
    (resNodeIds (get_node_neighbors selfLoopStore "A" 1)).head? = some "A" ∧
    (resNodeIds (get_node_neighbors selfLoopStore "A" 1)).tail.Nodup :=
  c1_dedup_amended selfLoopStore "A" ⟨"A", "A", "page", []⟩ 1 (by decide) (by decide) (by decide)

/-- C2 counterexample: inserting an edge between the nonexistent nodes `A`
and `B` into the empty store succeeds and stores the edge — the document
insert never consults the node collection. -/
theorem c2_counterexample :
    create_edge emptyStore ⟨none, "nodes/A", "nodes/B", "LINKS", []⟩ =
      .ok (⟨freshKey [], "nodes/A", "nodes/B", "LINKS", []⟩,
           ⟨[], [⟨freshKey [], "nodes/A", "nodes/B", "LINKS", []⟩]⟩) ∧
    nodeExists emptyStore "A" = false ∧
    nodeExists emptyStore "B" = false := by
  refine ⟨rfl, rfl, rfl⟩

/-- C2 (amended): whenever `from_node` and `to_node` are syntactically
valid document ids, edge creation succeeds and appends the edge to the
store — for every store, so in particular whether or not the endpoints
name existing nodes; endpoint existence is never checked. -/
theorem c2_no_endpoint_check_amended (st : Store) (inp : EdgeInput)
    (hf : validDocId inp.from_node = true) (ht : validDocId inp.to_node = true) :
    create_edge st inp =
      .ok (⟨freshKey (st.edges.map (fun e => e.key)), inp.from_node, inp.to_node,
              inp.label, inp.properties⟩,
           ⟨st.nodes,
            st.edges ++ [⟨freshKey (st.edges.map (fun e => e.key)), inp.from_node,
              inp.to_node, inp.label, inp.properties⟩]⟩) := by
  unfold create_edge
  rw [hf, ht]
  rfl

/-- C2 witness: an edge between two ids absent from a store that does hold
a node is created and stored all the same. -/
theorem c2_no_endpoint_check_witness :
    create_edge oneNodeStore ⟨none, "nodes/P", "nodes/Q", "REL", []⟩ =
      .ok (⟨freshKey (oneNodeStore.edges.map (fun e => e.key)), "nodes/P", "nodes/Q",
              "REL", []⟩,
           ⟨oneNodeStore.nodes,
            oneNodeStore.edges ++ [⟨freshKey (oneNodeStore.edges.map (fun e => e.key)),
              "nodes/P", "nodes/Q", "REL", []⟩]⟩) :=
  c2_no_endpoint_check_amended oneNodeStore ⟨none, "nodes/P", "nodes/Q", "REL", []⟩
    (by decide) (by decide)

/-- C3 counterexample: a create request that supplies the id `custom` does
not get it back — the handler overwrites the response id with the
store-assigned key. -/
theorem c3_counterexample :
    ((create_node emptyStore ⟨some "custom", "Page", "page", []⟩).1).id ≠ "custom" := by
  decide

/-- C3 (amended): node creation always answers with the freshly
store-assigned key as the id — a key distinct from every stored key —
whether or not the request supplied an id; the supplied id is never used
as the identifier. -/
theorem c3_always_fresh_id_amended (st : Store) (inp : NodeInput) :
    (create_node st inp).1 =
      ⟨freshKey (st.nodes.map (fun s => s.key)), inp.label, inp.type_, inp.properties⟩ ∧
    freshKey (st.nodes.map (fun s => s.key)) ∉ st.nodes.map (fun s => s.key) :=
  ⟨rfl, freshKey_not_mem _⟩

/-- C6 (confirmed): raising the depth by one never loses a node id from the
expansion result, for every store, existing start node and depth below the
bound. -/
theorem c6_depth_monotone (st : Store) (nodeId : String) (d : Int)
    (hex : nodeExists st nodeId = true) (h1 : 1 ≤ d) (h3 : d < 3) (x : String)
    (hx : x ∈ resNodeIds (get_node_neighbors st nodeId d)) :
    x ∈ resNodeIds (get_node_neighbors st nodeId (d + 1)) := by
  cases hfind : findNode st nodeId with
  | none => rw [nodeExists, hfind] at hex; simp at hex
  | some start =>
    have hd : 0 < d ∧ d ≤ 3 := ⟨by omega, by omega⟩
    have hd' : 0 < d + 1 ∧ d + 1 ≤ 3 := ⟨by omega, by omega⟩
    rw [get_node_neighbors_ok st nodeId start d hfind hd] at hx
    rw [get_node_neighbors_ok st nodeId start (d + 1) hfind hd']
    have htn : (d + 1).toNat = d.toNat + 1 := by omega
    rw [htn]
    simp only [resNodeIds, resNodes, List.map_cons, List.mem_cons, List.map_map] at hx ⊢
    have hcomp : ((fun n : Node => n.id) ∘ formatNode) = (fun s : StoredNode => s.key) := rfl
    rw [hcomp] at hx ⊢
    rcases hx with h | h
    · exact Or.inl h
    · right
      rw [mem_map_distinctList] at h ⊢
      rcases List.mem_map.mp h with ⟨v, hv, hvx⟩
      rcases List.mem_map.mp hv with ⟨r, hr, hrv⟩
      exact List.mem_map.mpr ⟨v,
        List.mem_map.mpr ⟨r, traverseFrom_mono st d.toNat _ _ r hr, hrv⟩, hvx⟩

/-- C6 witness: node `B`, present in the depth-1 expansion from `A` on the
chain store, is still present at depth 2. -/
theorem c6_depth_monotone_witness :
    "B" ∈ resNodeIds (get_node_neighbors chainStore "A" 2) :=
  c6_depth_monotone chainStore "A" 1 (by decide) (by decide) (by decide) "B" (by decide)

end Webgraphy
